import Mathlib

/-!
Verification of the duty-scheduling core (`scheduler.py`, class
`InternScheduler`) against its natural-language specification.

The embedding mirrors the source:

* `generate_dates` produces the consecutive days of the horizon; a day is
  represented by its offset from the start date (`index`) and its Python
  `weekday()` value (Monday = 0, …, Saturday = 5, Sunday = 6).  Since the
  horizon consists of consecutive calendar days, the weekday at offset `j`
  is `(startWeekday + j) % 7`.
* `verify_units` raises `ValueError` on insufficient aggregate quota; this
  is modelled by `Except` with a dedicated error type.  The
  `ZeroDivisionError` that `solve` raises when the intern list is empty and
  the quota check passes (`// len(self.interns)`) is a third error case.
* `random.shuffle` outcomes are passed to `solve` as explicit list
  arguments (`shuffledCopy` for the unconditional shuffle of the copy used
  by the weekend remainder loop, `selfShuffled` for the in-place shuffle of
  `self.interns` performed when `randomize` is true).  Theorems quantify
  over them, restricted to permutations of the intern list, which is the
  contract of `random.shuffle`.
* The external integer-program solver (`pulp`) is modelled by a
  `SolverResponse`: a status code together with a valuation of the binary
  decision variables.  The source reads variable values with
  `pulp.value(...) == 1`, which the valuation models directly.
* Python float division in the average-spacing metric is modelled as exact
  division in `ℚ` (the operands are integers).
-/

namespace DutyScheduler

/-- A day of the scheduling horizon: `index` is the offset in days from the
start date, `weekday` is the Python `datetime.weekday()` value
(Monday = 0, …, Saturday = 5, Sunday = 6). -/
structure Date where
  index : Nat
  weekday : Nat
deriving DecidableEq, Repr

/-- `generate_dates` (scheduler.py line 23): the consecutive days from the
start date to the end date inclusive.  `numDays` is the number of days in
the inclusive range; `startWeekday` is the weekday of the start date. -/
def generate_dates (startWeekday numDays : Nat) : List Date :=
  (List.range numDays).map (fun j => ⟨j, (startWeekday + j) % 7⟩)

/-- `get_units_for_day` (scheduler.py lines 167–173): Saturday = 2,
Sunday = 3, weekdays = 1. -/
def get_units_for_day (d : Date) : Nat :=
  if d.weekday = 5 then 2
  else if d.weekday = 6 then 3
  else 1

/-- `calculate_total_required_units` (scheduler.py lines 26–35): loop over
the dates accumulating 2 for Saturdays, 3 for Sundays, 1 otherwise. -/
def calculate_total_required_units (dates : List Date) : Nat :=
  dates.foldl
    (fun acc d =>
      if d.weekday = 5 then acc + 2
      else if d.weekday = 6 then acc + 3
      else acc + 1) 0

/-- The failures `solve` can raise before reaching the solver:
the two `ValueError`s of `verify_units` (scheduler.py lines 41–44) and the
`ZeroDivisionError` of the `// len(self.interns)` divisions (line 81 and
following) when the intern list is empty. -/
inductive SchedError where
  | insufficientTotal : SchedError
  | insufficientForMin : SchedError
  | zeroDivision : SchedError
deriving DecidableEq, Repr

/-- `verify_units` (scheduler.py lines 37–46).  `totalRequired` is `T`,
`minInterns` is `M`, `totalInternUnits` is `U` (the sum of the values of
the `units_per_intern` dict).  Raises on `U < T`, then on `U < T * M`,
otherwise succeeds. -/
def verify_units (totalRequired minInterns totalInternUnits : Nat) :
    Except SchedError Unit :=
  let totalRequiredInterns := totalRequired * minInterns
  if totalInternUnits < totalRequired then
    .error .insufficientTotal
  else if totalInternUnits < totalRequiredInterns then
    .error .insufficientForMin
  else
    .ok ()

/-- One pass of the remainder-distribution `for` loop over
`shuffled_interns` (scheduler.py lines 93–103).  The body breaks out when
both remainders are zero; otherwise it hands one extra Saturday slot to the
current intern while the Saturday remainder lasts, and one extra Sunday
slot afterwards.  The weekend-distribution dict is modelled as a function
from intern name to (saturdayTarget, sundayTarget); only names occurring in
the intern list are ever read. -/
def distributePass (shuffled : List String) (wd : String → Nat × Nat)
    (remSat remSun : Nat) : (String → Nat × Nat) × Nat × Nat :=
  match shuffled with
  | [] => (wd, remSat, remSun)
  | i :: rest =>
    if 0 < remSat then
      distributePass rest (Function.update wd i ((wd i).1 + 1, (wd i).2))
        (remSat - 1) remSun
    else if 0 < remSun then
      distributePass rest (Function.update wd i ((wd i).1, (wd i).2 + 1))
        remSat (remSun - 1)
    else
      (wd, remSat, remSun)

/-- The `while remainder_saturdays > 0 and remainder_sundays > 0` loop
(scheduler.py lines 92–103).  The guard is exactly the source's condition.
Each entered pass over a nonempty intern list strictly decreases
`remSat + remSun` (the first intern consumes one unit of the positive
Saturday remainder), so on every state reachable from `solve` — where the
intern list is nonempty, the divisions by `len(self.interns)` having
succeeded — the loop stabilises within `remSat + remSun` passes; that
bound is used as structural recursion depth, and
`distributeLoop_stable` below proves it is never the reason the
recursion stops. -/
def distributeLoop (fuel : Nat) (shuffled : List String)
    (wd : String → Nat × Nat) (remSat remSun : Nat) :
    (String → Nat × Nat) × Nat × Nat :=
  match fuel with
  | 0 => (wd, remSat, remSun)
  | f + 1 =>
    if 0 < remSat ∧ 0 < remSun then
      distributeLoop f shuffled (distributePass shuffled wd remSat remSun).1
        (distributePass shuffled wd remSat remSun).2.1
        (distributePass shuffled wd remSat remSun).2.2
    else
      (wd, remSat, remSun)

/-- The weekend pre-distribution of `solve` (scheduler.py lines 76–103):
baseline `(expected_saturdays, expected_sundays)` for every intern, then
the remainder loop walking `shuffled` (the unconditionally shuffled copy of
the intern list).  `interns` is the list `self.interns` iterated when
building the dict; the dict is modelled as a total function whose value is
the baseline everywhere, which agrees with the dict on every key it has. -/
def weekendDistribution (interns shuffled : List String)
    (numSat numSun minInterns : Nat) : String → Nat × Nat :=
  let n := interns.length
  let expectedSat := numSat * minInterns / n
  let expectedSun := numSun * minInterns / n
  let remSat := numSat * minInterns % n
  let remSun := numSun * minInterns % n
  (distributeLoop (remSat + remSun) shuffled
    (fun _ => (expectedSat, expectedSun)) remSat remSun).1

/-- The input of the scheduling core, as received by
`InternScheduler.__init__` (scheduler.py lines 12–21).  The horizon
`[start_date, end_date]` is given by the weekday of the start date and the
number of days in the inclusive range; `units_per_intern` is the lookup
function of the quota dict, whose keys are the distinct intern names
(app.py line 29). -/
structure SchedInput where
  startWeekday : Nat
  numDays : Nat
  interns : List String
  units_per_intern : String → Nat
  min_interns_per_duty : Nat
  minimum_spacing : Nat

/-- `sum(self.units_per_intern.values())` (scheduler.py line 39): the
values of the quota dict, one per distinct intern name. -/
def totalInternUnits (inp : SchedInput) : Nat :=
  (inp.interns.dedup.map inp.units_per_intern).sum

/-- `self.dates` (scheduler.py line 19). -/
def horizonDates (inp : SchedInput) : List Date :=
  generate_dates inp.startWeekday inp.numDays

/-- `self.calculate_total_required_units()` applied to the horizon
(scheduler.py line 49). -/
def requiredUnits (inp : SchedInput) : Nat :=
  calculate_total_required_units (horizonDates inp)

/-- `num_saturdays` (scheduler.py line 77). -/
def numSaturdays (inp : SchedInput) : Nat :=
  (horizonDates inp).countP (fun d => d.weekday == 5)

/-- `num_sundays` (scheduler.py line 78). -/
def numSundays (inp : SchedInput) : Nat :=
  (horizonDates inp).countP (fun d => d.weekday == 6)

/-- The list `self.interns` as it stands after the optional in-place
shuffle of scheduler.py lines 56–57: the shuffle outcome when `randomize`
is true, the original list otherwise.  Every loop of `solve` after that
point runs over this list. -/
def effectiveInterns (inp : SchedInput) (randomize : Bool)
    (selfShuffled : List String) : List String :=
  if randomize then selfShuffled else inp.interns

/-- The answer of the external integer-program solver (`prob.solve()`,
scheduler.py line 122): a pulp status code and the valuation of the binary
variables, indexed by intern name and date index.  `val i j = true` models
`pulp.value(intern_vars[(i, d)]) == 1` for the date at offset `j`. -/
structure SolverResponse where
  status : Int
  val : String → Nat → Bool

/-- Coverage constraints (scheduler.py lines 66–67): for every date, the
sum of the variables over the interns is at least `min_interns_per_duty`. -/
def coverageConstraints (interns : List String) (dates : List Date)
    (minInterns : Nat) (val : String → Nat → Bool) : Prop :=
  ∀ d ∈ dates, minInterns ≤ interns.countP (fun i => val i d.index)

/-- Quota constraints (scheduler.py lines 70–72): for every intern, the sum
over dates of variable × unit weight equals the intern's quota. -/
def quotaConstraints (interns : List String) (dates : List Date)
    (quota : String → Nat) (val : String → Nat → Bool) : Prop :=
  ∀ i ∈ interns,
    (dates.map (fun d => if val i d.index then get_units_for_day d else 0)).sum
      = quota i

/-- Weekend equality constraints (scheduler.py lines 105–110): for every
intern, the number of assigned Saturdays equals the Saturday target of the
weekend distribution, and likewise for Sundays. -/
def weekendConstraints (interns : List String) (dates : List Date)
    (wd : String → Nat × Nat) (val : String → Nat → Bool) : Prop :=
  ∀ i ∈ interns,
    dates.countP (fun d => d.weekday == 5 && val i d.index) = (wd i).1 ∧
    dates.countP (fun d => d.weekday == 6 && val i d.index) = (wd i).2

/-- Spacing constraints (scheduler.py lines 113–119): for every intern,
every position `j` and every offset `k` in `[1, minimum_spacing]` with
`j + k` still in range, the variables at positions `j` and `j + k` sum to
at most 1. -/
def spacingConstraints (interns : List String) (dates : List Date)
    (spacing : Nat) (val : String → Nat → Bool) : Prop :=
  ∀ i ∈ interns, ∀ j k : Nat, ∀ (hk1 : 1 ≤ k), k ≤ spacing →
    ∀ (h : j + k < dates.length),
      ¬(val i (dates.get ⟨j, by omega⟩).index = true ∧
        val i (dates.get ⟨j + k, h⟩).index = true)

/-- The full constraint set of the model built by `solve`
(scheduler.py lines 60–119). -/
def modelConstraints (interns : List String) (dates : List Date)
    (quota : String → Nat) (minInterns spacing : Nat)
    (wd : String → Nat × Nat) (val : String → Nat → Bool) : Prop :=
  coverageConstraints interns dates minInterns val ∧
  quotaConstraints interns dates quota val ∧
  weekendConstraints interns dates wd val ∧
  spacingConstraints interns dates spacing val

/-- Schedule extraction (scheduler.py lines 125, 133–137): for each date in
order, the list of interns (in `self.interns` order) whose variable value
is 1 on that date. -/
def extractSchedule (interns : List String) (dates : List Date)
    (val : String → Nat → Bool) : List (Date × List String) :=
  dates.map (fun d => (d, interns.filter (fun i => val i d.index)))

/-- The chronological shift list of one intern
(scheduler.py lines 129–135). -/
def shiftsFor (dates : List Date) (val : String → Nat → Bool)
    (i : String) : List Date :=
  dates.filter (fun d => val i d.index)

/-- Sum of the day gaps between consecutive elements of a shift list
(scheduler.py lines 150–151). -/
def gapSum : List Date → Int
  | [] => 0
  | [_] => 0
  | a :: b :: rest => ((b.index : Int) - a.index) + gapSum (b :: rest)

/-- Per-intern metrics (scheduler.py lines 158–165).  `average_spacing` is
`None` for an intern without shifts; Python float division is modelled as
exact division in `ℚ`. -/
structure InternMetrics where
  total_units_used : Nat
  average_spacing : Option ℚ
  num_shifts : Nat
  weekdays : Nat
  saturdays : Nat
  sundays : Nat
deriving DecidableEq, Repr

/-- The average-spacing computation (scheduler.py lines 147–155):
`(shifts[0] - dates[0]).days + (dates[-1] - shifts[-1]).days` plus the
consecutive gaps, divided by `len(shifts) + 1`; `None` when there are no
shifts.  (When `shifts` is empty any of the four projections is `none`, so
the result is `none`; a nonempty shift list only arises from a nonempty
date list.) -/
def averageSpacing (dates shifts : List Date) : Option ℚ :=
  match dates.head?, dates.getLast?, shifts.head?, shifts.getLast? with
  | some dFirst, some dLast, some sFirst, some sLast =>
    some (((((sFirst.index : Int) - dFirst.index) +
            ((dLast.index : Int) - sLast.index) + gapSum shifts : Int) : ℚ) /
          ((shifts.length : ℚ) + 1))
  | _, _, _, _ => none

/-- Metrics extraction for one intern (scheduler.py lines 128–165). -/
def metricsFor (dates : List Date) (val : String → Nat → Bool)
    (i : String) : InternMetrics :=
  let shifts := shiftsFor dates val i
  { total_units_used := (shifts.map get_units_for_day).sum
    average_spacing := averageSpacing dates shifts
    num_shifts := shifts.length
    weekdays := shifts.countP (fun d => decide (d.weekday < 5))
    saturdays := shifts.countP (fun d => d.weekday == 5)
    sundays := shifts.countP (fun d => d.weekday == 6) }

/-- What `solve` leaves behind on success: `self.schedule`,
`self.intern_metrics` (scheduler.py lines 125–165), and the weekend
targets the constraints were built from. -/
structure SolveResult where
  schedule : List (Date × List String)
  metrics : List (String × InternMetrics)
  weekendTargets : List (String × Nat × Nat)
deriving DecidableEq, Repr

/-- `InternScheduler.solve` (scheduler.py lines 48–165).

* `shuffledCopy` is the outcome of the unconditional
  `random.shuffle(shuffled_interns)` of the copy (lines 53–54), used only
  by the weekend remainder loop.
* `selfShuffled` is the outcome of the in-place
  `random.shuffle(self.interns)` performed only when `randomize` is true
  (lines 56–57); every later loop runs over the possibly reshuffled list.
* `resp` is the external solver's answer.  The source never inspects the
  status returned by `prob.solve()` (line 122): extraction runs
  unconditionally on the variable values, so `resp.status` is unused
  here exactly as in the source. -/
def solve (inp : SchedInput) (randomize : Bool)
    (shuffledCopy selfShuffled : List String) (resp : SolverResponse) :
    Except SchedError SolveResult :=
  match verify_units (requiredUnits inp) inp.min_interns_per_duty
      (totalInternUnits inp) with
  | .error e => .error e
  | .ok _ =>
    if (effectiveInterns inp randomize selfShuffled).length = 0 then
      .error .zeroDivision
    else
      .ok { schedule := extractSchedule
              (effectiveInterns inp randomize selfShuffled)
              (horizonDates inp) resp.val
            metrics := (effectiveInterns inp randomize selfShuffled).map
              (fun i => (i, metricsFor (horizonDates inp) resp.val i))
            weekendTargets := (effectiveInterns inp randomize selfShuffled).map
              (fun i => (i, weekendDistribution
                (effectiveInterns inp randomize selfShuffled) shuffledCopy
                (numSaturdays inp) (numSundays inp)
                inp.min_interns_per_duty i)) }

/-- The state of the caller-supplied intern list after `solve` returns or
raises: `__init__` stores the caller's list without copying
(scheduler.py line 15), and `solve` shuffles that very list in place when
`randomize` is true (line 57), after `verify_units` has passed
(line 50). -/
def internsAfterSolve (inp : SchedInput) (randomize : Bool)
    (selfShuffled : List String) : List String :=
  match verify_units (requiredUnits inp) inp.min_interns_per_duty
      (totalInternUnits inp) with
  | .error _ => inp.interns
  | .ok _ => if randomize then selfShuffled else inp.interns

/-- Modelled from the spec (§4.4), for comparison with the source's
`averageSpacing`: the gap in days from horizon start to the first shift,
plus the gaps between consecutive shifts, plus the gap from the last shift
to horizon end (the last day of a horizon of `numDays` days is at offset
`numDays - 1`), divided by `num_shifts + 1`; absent when there are no
shifts. -/
def specAverageSpacing (numDays : Nat) (shifts : List Date) : Option ℚ :=
  match shifts.head?, shifts.getLast? with
  | some sFirst, some sLast =>
    some ((((sFirst.index : Int) + gapSum shifts +
            ((numDays : Int) - 1 - sLast.index)) : ℚ) /
          ((shifts.length : ℚ) + 1))
  | _, _ => none

/-! ### Concrete instances used by the counterexamples and witnesses -/

/-- A horizon of 15 days starting on a Saturday (3 Saturdays, 2 Sundays),
3 interns of quota 8, minimum staffing 1: the Saturday remainder is
`3 % 3 = 0` while the Sunday remainder is `2 % 3 = 2`. -/
def inp3 : SchedInput := ⟨5, 15, ["A", "B", "C"], (fun _ => 8), 1, 1⟩

/-- Two interns over a single Monday, quota 1 each: the quota check
passes. -/
def inp9 : SchedInput := ⟨0, 1, ["A", "B"], (fun _ => 1), 1, 1⟩

/-- Two interns over a Saturday–Sunday weekend, quota 3 each, minimum
staffing 1: both weekend remainders are 1, so the remainder loop runs and
its outcome depends on the shuffled order. -/
def inp10 : SchedInput := ⟨5, 2, ["A", "B"], (fun _ => 3), 1, 1⟩

/-- One intern of quota 2 over two consecutive weekdays with minimum
spacing 1: the quota check passes (U = T = 2, M = 1) but the quota and
spacing constraints contradict each other, so the model is infeasible. -/
def infeasibleInput : SchedInput := ⟨0, 2, ["A"], (fun _ => 2), 1, 1⟩

/-- A solver answer reporting no solution: pulp's infeasible status `-1`
with every variable left unset, so every `pulp.value(...) == 1` test is
false. -/
def noSolutionResp : SolverResponse := ⟨-1, fun _ _ => false⟩

/-- A solver answer with optimal status `1` and every variable 0. -/
def quietResp : SolverResponse := ⟨1, fun _ _ => false⟩

/-- One intern of quota 1 over a single Monday, minimum staffing 1: a
feasible instance whose model is satisfied by assigning the intern to the
single day. -/
def inpFeasible : SchedInput := ⟨0, 1, ["A"], (fun _ => 1), 1, 1⟩

/-- A solver answer with optimal status `1` and every variable 1. -/
def fullResp : SolverResponse := ⟨1, fun _ _ => true⟩

/-- The result `solve` produces on `inpFeasible` with the all-ones
valuation. -/
def outFeasible : SolveResult :=
  { schedule := [(⟨0, 0⟩, ["A"])]
    metrics := [("A",
      { total_units_used := 1, average_spacing := some 0, num_shifts := 1,
        weekdays := 1, saturdays := 0, sundays := 0 })]
    weekendTargets := [("A", 0, 0)] }

/-! ### Lemmas about the remainder loop -/

/-- A pass never increases the sum of the two remainders. -/
theorem distributePass_sum_le (shuffled : List String)
    (wd : String → Nat × Nat) (remSat remSun : Nat) :
    (distributePass shuffled wd remSat remSun).2.1 +
      (distributePass shuffled wd remSat remSun).2.2 ≤ remSat + remSun := by
  induction shuffled generalizing wd remSat remSun with
  | nil => simp [distributePass]
  | cons i rest ih =>
    by_cases h1 : 0 < remSat
    · simp only [distributePass, if_pos h1]
      exact le_trans (ih _ _ _) (by omega)
    · by_cases h2 : 0 < remSun
      · simp only [distributePass, if_neg h1, if_pos h2]
        exact le_trans (ih _ _ _) (by omega)
      · simp [distributePass, h1, h2]

/-- A pass over a nonempty list entered with a positive Saturday remainder
strictly decreases the sum of the remainders. -/
theorem distributePass_sum_lt (shuffled : List String)
    (wd : String → Nat × Nat) (remSat remSun : Nat)
    (hne : shuffled ≠ []) (h : 0 < remSat) :
    (distributePass shuffled wd remSat remSun).2.1 +
      (distributePass shuffled wd remSat remSun).2.2 < remSat + remSun := by
  obtain ⟨i, rest, rfl⟩ := List.exists_cons_of_ne_nil hne
  simp only [distributePass, if_pos h]
  exact lt_of_le_of_lt (distributePass_sum_le _ _ _ _) (by omega)

/-- With a nonempty intern list and at least `remSat + remSun` fuel, the
recursion depth bound never cuts the loop short: the state it returns
fails the source's `while` condition. -/
theorem distributeLoop_stable (fuel : Nat) (shuffled : List String)
    (wd : String → Nat × Nat) (remSat remSun : Nat)
    (hne : shuffled ≠ []) (hfuel : remSat + remSun ≤ fuel) :
    ¬(0 < (distributeLoop fuel shuffled wd remSat remSun).2.1 ∧
      0 < (distributeLoop fuel shuffled wd remSat remSun).2.2) := by
  induction fuel generalizing wd remSat remSun with
  | zero =>
    have h1 : remSat = 0 := by omega
    simp [distributeLoop, h1]
  | succ f ih =>
    by_cases hg : 0 < remSat ∧ 0 < remSun
    · simp only [distributeLoop, if_pos hg]
      exact ih _ _ _ (by
        have := distributePass_sum_lt shuffled wd remSat remSun hne hg.1
        omega)
    · simp only [distributeLoop, if_neg hg]
      exact hg

/-! ### Basic lemmas about the calendar model -/

theorem generate_dates_length (s n : Nat) :
    (generate_dates s n).length = n := by
  simp [generate_dates]

theorem mem_generate_dates {s n : Nat} {d : Date} :
    d ∈ generate_dates s n ↔ d.index < n ∧ d.weekday = (s + d.index) % 7 := by
  simp only [generate_dates, List.mem_map, List.mem_range]
  constructor
  · rintro ⟨j, hj, rfl⟩
    exact ⟨hj, rfl⟩
  · rintro ⟨h1, h2⟩
    exact ⟨d.index, h1, by cases d with | mk a b => simp_all⟩

theorem generate_dates_get (s n j : Nat)
    (h : j < (generate_dates s n).length) :
    (generate_dates s n).get ⟨j, h⟩ = ⟨j, (s + j) % 7⟩ := by
  simp [generate_dates]

theorem calculate_total_eq_sum (dates : List Date) :
    calculate_total_required_units dates
      = (dates.map get_units_for_day).sum := by
  have key : ∀ (l : List Date) (a : Nat),
      l.foldl (fun acc d =>
        if d.weekday = 5 then acc + 2
        else if d.weekday = 6 then acc + 3
        else acc + 1) a = a + (l.map get_units_for_day).sum := by
    intro l
    induction l with
    | nil => simp
    | cons d t ih =>
      intro a
      simp only [List.foldl_cons, List.map_cons, List.sum_cons, ih]
      unfold get_units_for_day
      split <;> [omega; skip]
      split <;> omega
  simpa [calculate_total_required_units] using key dates 0

theorem one_le_get_units (d : Date) : 1 ≤ get_units_for_day d := by
  unfold get_units_for_day
  split <;> [omega; skip]
  split <;> omega

theorem calculate_total_pos (s n : Nat) (h : 0 < n) :
    0 < calculate_total_required_units (generate_dates s n) := by
  rw [calculate_total_eq_sum]
  cases n with
  | zero => omega
  | succ m =>
    have hmem : (⟨0, s % 7⟩ : Date) ∈ generate_dates s (m + 1) := by
      simp [generate_dates, List.mem_map]
      exact ⟨0, by omega, by simp⟩
    calc 0 < get_units_for_day ⟨0, s % 7⟩ := one_le_get_units _
    _ ≤ ((generate_dates s (m + 1)).map get_units_for_day).sum :=
        List.single_le_sum (by simp) _ (List.mem_map_of_mem _ hmem)

/-! ### C7: unit weights and total required units -/

/-- C7: every date of a horizon has unit weight exactly 1 on Monday–Friday
(Python weekday 0–4), 2 on Saturday (weekday 5), 3 on Sunday (weekday 6),
and `calculate_total_required_units` is the sum of these unit weights over
all dates of the horizon. -/
theorem units_and_total_spec (s n : Nat) :
    (∀ d ∈ generate_dates s n,
      (d.weekday < 5 → get_units_for_day d = 1) ∧
      (d.weekday = 5 → get_units_for_day d = 2) ∧
      (d.weekday = 6 → get_units_for_day d = 3)) ∧
    calculate_total_required_units (generate_dates s n)
      = ((generate_dates s n).map get_units_for_day).sum := by
  refine ⟨fun d _ => ⟨fun h => ?_, fun h => ?_, fun h => ?_⟩,
    calculate_total_eq_sum _⟩ <;>
    · unfold get_units_for_day
      split <;> try split
      all_goals omega

/-- Witness for C7 on the week starting Monday: the Saturday, the Sunday
and the Monday of that week get weights 2, 3 and 1. -/
theorem units_and_total_spec_witness :
    get_units_for_day ⟨5, 5⟩ = 2 ∧ get_units_for_day ⟨6, 6⟩ = 3 ∧
      get_units_for_day ⟨0, 0⟩ = 1 :=
  ⟨((units_and_total_spec 0 7).1 ⟨5, 5⟩ (by decide)).2.1 rfl,
   ((units_and_total_spec 0 7).1 ⟨6, 6⟩ (by decide)).2.2 rfl,
   ((units_and_total_spec 0 7).1 ⟨0, 0⟩ (by decide)).1 (by decide)⟩

/-! ### C4: the pre-solve feasibility check -/

/-- C4: with `T = requiredUnits`, `M = min_interns_per_duty` and `U` the
sum of all quotas, `solve` fails with the first insufficiency error when
`U < T`, otherwise fails with the second when `U < T * M`, and otherwise
proceeds past the check (and, whenever the intern list it works on is
nonempty, returns a result: the check is the only failure point before
model construction). -/
theorem presolve_check_spec (inp : SchedInput) (randomize : Bool)
    (shuffledCopy selfShuffled : List String) (resp : SolverResponse) :
    (totalInternUnits inp < requiredUnits inp →
      solve inp randomize shuffledCopy selfShuffled resp
        = .error .insufficientTotal) ∧
    (¬ totalInternUnits inp < requiredUnits inp →
      totalInternUnits inp < requiredUnits inp * inp.min_interns_per_duty →
      solve inp randomize shuffledCopy selfShuffled resp
        = .error .insufficientForMin) ∧
    (¬ totalInternUnits inp < requiredUnits inp →
      ¬ totalInternUnits inp < requiredUnits inp * inp.min_interns_per_duty →
      effectiveInterns inp randomize selfShuffled ≠ [] →
      ∃ out, solve inp randomize shuffledCopy selfShuffled resp
        = Except.ok out) := by
  refine ⟨fun h1 => ?_, fun h1 h2 => ?_, fun h1 h2 h3 => ?_⟩
  · simp [solve, verify_units, h1]
  · simp [solve, verify_units, h1, h2]
  · have hlen : (effectiveInterns inp randomize selfShuffled).length ≠ 0 := by
      simpa [List.length_eq_zero] using h3
    cases hres : solve inp randomize shuffledCopy selfShuffled resp with
    | ok out => exact ⟨out, rfl⟩
    | error e =>
      exfalso
      revert hres
      simp [solve, verify_units, h1, h2, hlen]

/-- Witness for C4, one concrete input per branch: an empty roster over one
Monday (U = 0 < T = 1); one intern of quota 1 over one Monday with minimum
staffing 2 (U = 1 ≥ T = 1 but U < T·M = 2); and one intern of quota 1 over
one Monday with minimum staffing 1 (check passes, a result is returned). -/
theorem presolve_check_spec_witness :
    solve ⟨0, 1, [], (fun _ => 0), 1, 1⟩ true [] [] ⟨1, fun _ _ => false⟩
      = .error .insufficientTotal ∧
    solve ⟨0, 1, ["A"], (fun _ => 1), 2, 1⟩ false ["A"] ["A"]
      ⟨1, fun _ _ => false⟩ = .error .insufficientForMin ∧
    ∃ out, solve ⟨0, 1, ["A"], (fun _ => 1), 1, 1⟩ false ["A"] ["A"]
      ⟨1, fun _ _ => false⟩ = Except.ok out :=
  ⟨(presolve_check_spec ⟨0, 1, [], (fun _ => 0), 1, 1⟩ true [] []
      ⟨1, fun _ _ => false⟩).1 (by decide),
   (presolve_check_spec ⟨0, 1, ["A"], (fun _ => 1), 2, 1⟩ false ["A"] ["A"]
      ⟨1, fun _ _ => false⟩).2.1 (by decide) (by decide),
   (presolve_check_spec ⟨0, 1, ["A"], (fun _ => 1), 1, 1⟩ false ["A"] ["A"]
      ⟨1, fun _ _ => false⟩).2.2 (by decide) (by decide) (by decide)⟩

/-! ### C8: empty roster over a nonempty horizon -/

/-- C8: with an empty intern list and a valid horizon of at least one day,
`solve` fails in `verify_units` with the first insufficiency error (the
aggregate quota is 0 and the demand is positive), so the weekend
pre-distribution is never reached. -/
theorem solve_empty_roster (inp : SchedInput) (randomize : Bool)
    (shuffledCopy selfShuffled : List String) (resp : SolverResponse)
    (hE : inp.interns = []) (hD : 0 < inp.numDays) :
    solve inp randomize shuffledCopy selfShuffled resp
      = .error .insufficientTotal := by
  have hU : totalInternUnits inp = 0 := by simp [totalInternUnits, hE]
  have hT : 0 < requiredUnits inp :=
    calculate_total_pos inp.startWeekday inp.numDays hD
  simp [solve, verify_units, hU, hT]

/-- Witness for C8: an empty roster over a single Monday. -/
theorem solve_empty_roster_witness :
    solve ⟨0, 1, [], (fun _ => 5), 1, 1⟩ true [] [] ⟨1, fun _ _ => true⟩
      = .error .insufficientTotal :=
  solve_empty_roster ⟨0, 1, [], (fun _ => 5), 1, 1⟩ true [] []
    ⟨1, fun _ _ => true⟩ rfl (by decide)

/-! ### C3: the remainder loop exits on `and`, not `or` -/

/-- C3 is false of the code: the loop guard is
`while remainder_saturdays > 0 and remainder_sundays > 0`
(scheduler.py line 92), so over the horizon of `inp3` (3 Saturdays, 2
Sundays, 3 interns, minimum staffing 1) the Saturday remainder `3 % 3 = 0`
prevents the loop body from ever running: the loop ends with the Sunday
remainder 2 not exhausted, and the Sunday targets sum to 0, not
`num_sundays × min_interns_per_duty = 2` (the Saturday targets still sum
to 3 from the baseline). -/
theorem weekend_loop_and_bug :
    numSaturdays inp3 = 3 ∧ numSundays inp3 = 2 ∧
    inp3.interns.length = 3 ∧ inp3.min_interns_per_duty = 1 ∧
    (distributeLoop 2 ["A", "B", "C"] (fun _ => (1, 0)) 0 2).2.2 = 2 ∧
    (inp3.interns.map (fun i =>
      (weekendDistribution inp3.interns ["A", "B", "C"] (numSaturdays inp3)
        (numSundays inp3) inp3.min_interns_per_duty i).2)).sum = 0 ∧
    (inp3.interns.map (fun i =>
      (weekendDistribution inp3.interns ["A", "B", "C"] (numSaturdays inp3)
        (numSundays inp3) inp3.min_interns_per_duty i).1)).sum = 3 := by
  decide

/-! ### C9: the in-place shuffle of the caller's intern list -/

/-- C9: when `randomize` is true, `solve` reorders the caller's intern
list in place (`self.interns` aliases the constructor argument,
scheduler.py line 15, and line 57 shuffles it): afterwards the list is a
permutation of — so has the same multiset of elements as — the original,
and for some input and shuffle outcome the resulting order differs from
the original. -/
theorem inplace_shuffle_spec :
    (∀ (inp : SchedInput) (sh : List String), sh.Perm inp.interns →
      (internsAfterSolve inp true sh).Perm inp.interns) ∧
    ∃ (inp : SchedInput) (sh : List String), sh.Perm inp.interns ∧
      internsAfterSolve inp true sh ≠ inp.interns := by
  constructor
  · intro inp sh hperm
    rcases hv : verify_units (requiredUnits inp) inp.min_interns_per_duty
      (totalInternUnits inp) with e | u
    · simp [internsAfterSolve, hv]
    · simpa [internsAfterSolve, hv] using hperm
  · exact ⟨inp9, ["B", "A"], by decide, by decide⟩

/-- Witness for C9: shuffling `["A", "B"]` into `["B", "A"]` leaves the
caller's list a permutation of the original. -/
theorem inplace_shuffle_spec_witness :
    (internsAfterSolve inp9 true ["B", "A"]).Perm inp9.interns :=
  inplace_shuffle_spec.1 inp9 ["B", "A"] (by decide)

/-! ### C10: weekend distribution is randomized even with randomize=False -/

/-- C10: the copy used by the remainder loop is shuffled unconditionally
(scheduler.py lines 53–54), before and independently of the `randomize`
flag, so two runs of `solve` with identical inputs and `randomize=False`
whose process-global shuffles land on different orders produce different
per-person weekend targets.  Both orders below are permutations of the
intern list, i.e. possible outcomes of `random.shuffle`. -/
theorem unconditional_shuffle_nondet :
    (["A", "B"] : List String).Perm inp10.interns ∧
    (["B", "A"] : List String).Perm inp10.interns ∧
    ∃ out1 out2,
      solve inp10 false ["A", "B"] inp10.interns quietResp = Except.ok out1 ∧
      solve inp10 false ["B", "A"] inp10.interns quietResp = Except.ok out2 ∧
      out1.weekendTargets ≠ out2.weekendTargets :=
  ⟨by decide, by decide, _, _, rfl, rfl, by decide⟩

/-! ### Lemmas for the extraction step -/

theorem generate_dates_get_index (s n j : Nat)
    (h : j < (generate_dates s n).length) :
    ((generate_dates s n).get ⟨j, h⟩).index = j := by
  simp [generate_dates]

theorem horizonDates_length (inp : SchedInput) :
    (horizonDates inp).length = inp.numDays :=
  generate_dates_length _ _

theorem sum_map_filter_ite (l : List Date) (p : Date → Bool)
    (f : Date → Nat) :
    ((l.filter p).map f).sum = (l.map fun d => if p d then f d else 0).sum := by
  induction l with
  | nil => rfl
  | cons a t ih =>
    by_cases h : p a <;> simp [List.filter_cons, h, ih]

/-- The tiny instance `infeasibleInput` admits no satisfying valuation,
whatever the weekend targets: the quota constraint forces the single
intern onto both days, the spacing constraint forbids it. -/
theorem infeasibleInput_no_assignment :
    ∀ (wd : String → Nat × Nat) (val : String → Nat → Bool),
      ¬ modelConstraints infeasibleInput.interns (horizonDates infeasibleInput)
        infeasibleInput.units_per_intern infeasibleInput.min_interns_per_duty
        infeasibleInput.minimum_spacing wd val := by
  intro wd val h
  obtain ⟨-, hquota, -, hsp⟩ := h
  have hmem : "A" ∈ infeasibleInput.interns := by decide
  have hq : (if val "A" 0 = true then 1 else 0) +
      ((if val "A" 1 = true then 1 else 0) + 0) = 2 := hquota "A" hmem
  have hs := hsp "A" hmem 0 1 (le_refl 1) (le_refl 1) (by decide)
  cases hb0 : val "A" 0 <;> cases hb1 : val "A" 1 <;> simp [hb0, hb1] at hq
  exact hs ⟨hb0, hb1⟩

/-! ### C2: infeasibility is not surfaced -/

/-- C2 is false of the code: `solve` never inspects the status returned by
`prob.solve()` (scheduler.py line 122) and extracts unconditionally.  On
`infeasibleInput` — whose constraint set provably admits no assignment —
with the solver reporting infeasible and leaving every variable unset,
`solve` returns a successful, empty Schedule instead of a distinct
failure. -/
theorem infeasible_silently_ok :
    (∀ (wd : String → Nat × Nat) (val : String → Nat → Bool),
      ¬ modelConstraints infeasibleInput.interns (horizonDates infeasibleInput)
        infeasibleInput.units_per_intern infeasibleInput.min_interns_per_duty
        infeasibleInput.minimum_spacing wd val) ∧
    solve infeasibleInput false ["A"] ["A"] noSolutionResp
      = Except.ok
        { schedule := [(⟨0, 0⟩, []), (⟨1, 1⟩, [])]
          metrics := [("A",
            { total_units_used := 0, average_spacing := none, num_shifts := 0,
              weekdays := 0, saturdays := 0, sundays := 0 })]
          weekendTargets := [("A", 0, 0)] } :=
  ⟨infeasibleInput_no_assignment, rfl⟩

/-! ### C1: the §3 invariants -/

/-- C1 as stated is false of the code: on `infeasibleInput` (a valid input
that passes the quota pre-check) with the solver reporting no solution,
`solve` still returns a Schedule, and that Schedule violates the coverage
invariant (no date has the minimum of 1 intern on duty). -/
theorem invariants_counterexample :
    ∃ out, solve infeasibleInput false ["A"] ["A"] noSolutionResp
        = Except.ok out ∧
      ¬(∀ p ∈ out.schedule,
        infeasibleInput.min_interns_per_duty ≤ p.2.length) :=
  ⟨_, rfl, by decide⟩

/-- C1 amended: if `solve` returns a Schedule **and** the valuation
returned by the solver satisfies the constraints of the model `solve`
built (which is what a correct solver guarantees whenever the model is
feasible — the source itself never checks this), then every §3 invariant
holds of the result: every date has at least `min_interns_per_duty`
assigned persons, every person's units match their quota exactly, every
person's Saturday and Sunday counts equal their weekend-distribution
targets, and no person holds two duties whose horizon positions are
`minimum_spacing` days apart or closer. -/
theorem solve_ok_invariants (inp : SchedInput) (randomize : Bool)
    (shuffledCopy selfShuffled : List String) (resp : SolverResponse)
    (out : SolveResult)
    (hok : solve inp randomize shuffledCopy selfShuffled resp = Except.ok out)
    (hsat : modelConstraints (effectiveInterns inp randomize selfShuffled)
      (horizonDates inp) inp.units_per_intern inp.min_interns_per_duty
      inp.minimum_spacing
      (weekendDistribution (effectiveInterns inp randomize selfShuffled)
        shuffledCopy (numSaturdays inp) (numSundays inp)
        inp.min_interns_per_duty) resp.val) :
    (∀ p ∈ out.schedule, inp.min_interns_per_duty ≤ p.2.length) ∧
    (∀ q ∈ out.metrics, q.2.total_units_used = inp.units_per_intern q.1) ∧
    (∀ q ∈ out.metrics,
      q.2.saturdays
          = (weekendDistribution (effectiveInterns inp randomize selfShuffled)
            shuffledCopy (numSaturdays inp) (numSundays inp)
            inp.min_interns_per_duty q.1).1 ∧
      q.2.sundays
          = (weekendDistribution (effectiveInterns inp randomize selfShuffled)
            shuffledCopy (numSaturdays inp) (numSundays inp)
            inp.min_interns_per_duty q.1).2) ∧
    (∀ i ∈ effectiveInterns inp randomize selfShuffled,
      ∀ d1 ∈ shiftsFor (horizonDates inp) resp.val i,
      ∀ d2 ∈ shiftsFor (horizonDates inp) resp.val i,
        d1.index < d2.index → inp.minimum_spacing < d2.index - d1.index) := by
  obtain ⟨hcov, hquo, hwk, hsp⟩ := hsat
  rcases hv : verify_units (requiredUnits inp) inp.min_interns_per_duty
    (totalInternUnits inp) with e | u
  · rw [solve, hv] at hok
    cases hok
  · rw [solve, hv] at hok
    by_cases hlen : (effectiveInterns inp randomize selfShuffled).length = 0
    · rw [if_pos hlen] at hok
      cases hok
    · rw [if_neg hlen] at hok
      obtain rfl := (Except.ok.injEq _ _).mp hok
      refine ⟨?_, ?_, ?_, ?_⟩
      · intro p hp
        simp only [extractSchedule, List.mem_map] at hp
        obtain ⟨d, hd, rfl⟩ := hp
        have := hcov d hd
        rwa [List.countP_eq_length_filter] at this
      · intro q hq
        simp only [List.mem_map] at hq
        obtain ⟨i, hi, rfl⟩ := hq
        show (metricsFor (horizonDates inp) resp.val i).total_units_used = _
        simp only [metricsFor, shiftsFor]
        rw [sum_map_filter_ite]
        exact hquo i hi
      · intro q hq
        simp only [List.mem_map] at hq
        obtain ⟨i, hi, rfl⟩ := hq
        have hw := hwk i hi
        constructor
        · show ((horizonDates inp).filter
              (fun d => resp.val i d.index)).countP (fun d => d.weekday == 5)
            = _
          rw [List.countP_filter]
          exact hw.1
        · show ((horizonDates inp).filter
              (fun d => resp.val i d.index)).countP (fun d => d.weekday == 6)
            = _
          rw [List.countP_filter]
          exact hw.2
      · intro i hi d1 hd1 d2 hd2 hlt
        rw [shiftsFor, List.mem_filter] at hd1 hd2
        obtain ⟨hd1m, hv1⟩ := hd1
        obtain ⟨hd2m, hv2⟩ := hd2
        by_contra hcon
        push_neg at hcon
        have h1 : d1.index < inp.numDays := (mem_generate_dates.mp hd1m).1
        have h2 : d2.index < inp.numDays := (mem_generate_dates.mp hd2m).1
        have hklen : d1.index + (d2.index - d1.index)
            < (horizonDates inp).length := by
          rw [horizonDates_length]
          omega
        have hfar := hsp i hi d1.index (d2.index - d1.index)
          (by omega) (by omega) hklen
        simp only [horizonDates, generate_dates_get_index] at hfar
        have harith : d1.index + (d2.index - d1.index) = d2.index := by omega
        rw [harith] at hfar
        exact hfar ⟨hv1, hv2⟩

/-- Witness for the amended C1 on the feasible one-intern, one-Monday
instance with the all-ones valuation, which satisfies every model
constraint. -/
theorem solve_ok_invariants_witness :
    (∀ p ∈ outFeasible.schedule,
      inpFeasible.min_interns_per_duty ≤ p.2.length) ∧
    (∀ q ∈ outFeasible.metrics,
      q.2.total_units_used = inpFeasible.units_per_intern q.1) ∧
    (∀ q ∈ outFeasible.metrics,
      q.2.saturdays
          = (weekendDistribution (effectiveInterns inpFeasible false ["A"])
            ["A"] (numSaturdays inpFeasible) (numSundays inpFeasible)
            inpFeasible.min_interns_per_duty q.1).1 ∧
      q.2.sundays
          = (weekendDistribution (effectiveInterns inpFeasible false ["A"])
            ["A"] (numSaturdays inpFeasible) (numSundays inpFeasible)
            inpFeasible.min_interns_per_duty q.1).2) ∧
    (∀ i ∈ effectiveInterns inpFeasible false ["A"],
      ∀ d1 ∈ shiftsFor (horizonDates inpFeasible) fullResp.val i,
      ∀ d2 ∈ shiftsFor (horizonDates inpFeasible) fullResp.val i,
        d1.index < d2.index →
          inpFeasible.minimum_spacing < d2.index - d1.index) := by
  have hv : verify_units (requiredUnits inpFeasible)
      inpFeasible.min_interns_per_duty (totalInternUnits inpFeasible)
      = Except.ok () := rfl
  have hInterns : effectiveInterns inpFeasible false ["A"] = ["A"] := rfl
  have hdates : horizonDates inpFeasible = [⟨0, 0⟩] := by decide
  have havg : metricsFor (horizonDates inpFeasible) fullResp.val "A" =
      { total_units_used := 1, average_spacing := some 0, num_shifts := 1,
        weekdays := 1, saturdays := 0, sundays := 0 } := by
    rw [hdates]
    simp [metricsFor, shiftsFor, averageSpacing, gapSum, fullResp,
      get_units_for_day]
  have hok : solve inpFeasible false ["A"] ["A"] fullResp
      = Except.ok outFeasible := by
    rw [solve, hv]
    rw [if_neg (by decide :
      ¬(effectiveInterns inpFeasible false ["A"]).length = 0)]
    refine congrArg Except.ok ?_
    simp only [outFeasible, SolveResult.mk.injEq, hInterns]
    refine ⟨?_, ?_, ?_⟩
    · rw [hdates]
      simp [extractSchedule, fullResp]
    · simp only [List.map_cons, List.map_nil, havg]
    · decide
  exact solve_ok_invariants inpFeasible false ["A"] ["A"] fullResp outFeasible
    hok
    ⟨by unfold coverageConstraints; decide,
     by unfold quotaConstraints; decide,
     by unfold weekendConstraints; decide,
     by
       intro i hi j k hk1 hk2 hlen
       rw [horizonDates_length] at hlen
       have hnd : inpFeasible.numDays = 1 := rfl
       omega⟩

/-! ### C5: fairness of the pre-distribution -/

theorem distributePass_fst_le (sh : List String) (wd : String → Nat × Nat)
    (s u : Nat) (i : String) :
    (((distributePass sh wd s u).1) i).1 ≤ (wd i).1 + sh.count i := by
  induction sh generalizing wd s u with
  | nil => simp [distributePass]
  | cons a rest ih =>
    by_cases h1 : 0 < s
    · simp only [distributePass, if_pos h1]
      refine le_trans (ih _ _ _) ?_
      by_cases hia : i = a
      · subst hia
        simp [Function.update_apply, List.count_cons] <;> omega
      · simp [Function.update_apply, hia, List.count_cons, Ne.symm hia] <;>
          omega
    · by_cases h2 : 0 < u
      · simp only [distributePass, if_neg h1, if_pos h2]
        refine le_trans (ih _ _ _) ?_
        by_cases hia : i = a
        · subst hia
          simp [Function.update_apply, List.count_cons] <;> omega
        · simp [Function.update_apply, hia, List.count_cons, Ne.symm hia] <;>
            omega
      · simp only [distributePass, if_neg h1, if_neg h2]
        omega

theorem distributePass_snd_le (sh : List String) (wd : String → Nat × Nat)
    (s u : Nat) (i : String) :
    (((distributePass sh wd s u).1) i).2 ≤ (wd i).2 + sh.count i := by
  induction sh generalizing wd s u with
  | nil => simp [distributePass]
  | cons a rest ih =>
    by_cases h1 : 0 < s
    · simp only [distributePass, if_pos h1]
      refine le_trans (ih _ _ _) ?_
      by_cases hia : i = a
      · subst hia
        simp [Function.update_apply, List.count_cons] <;> omega
      · simp [Function.update_apply, hia, List.count_cons, Ne.symm hia] <;>
          omega
    · by_cases h2 : 0 < u
      · simp only [distributePass, if_neg h1, if_pos h2]
        refine le_trans (ih _ _ _) ?_
        by_cases hia : i = a
        · subst hia
          simp [Function.update_apply, List.count_cons] <;> omega
        · simp [Function.update_apply, hia, List.count_cons, Ne.symm hia] <;>
            omega
      · simp only [distributePass, if_neg h1, if_neg h2]
        omega

theorem distributePass_fst_ge (sh : List String) (wd : String → Nat × Nat)
    (s u : Nat) (i : String) :
    (wd i).1 ≤ (((distributePass sh wd s u).1) i).1 := by
  induction sh generalizing wd s u with
  | nil => simp [distributePass]
  | cons a rest ih =>
    by_cases h1 : 0 < s
    · simp only [distributePass, if_pos h1]
      refine le_trans ?_ (ih _ _ _)
      by_cases hia : i = a
      · subst hia
        simp [Function.update_apply]
      · simp [Function.update_apply, hia]
    · by_cases h2 : 0 < u
      · simp only [distributePass, if_neg h1, if_pos h2]
        refine le_trans ?_ (ih _ _ _)
        by_cases hia : i = a
        · subst hia
          simp [Function.update_apply]
        · simp [Function.update_apply, hia]
      · simp [distributePass, h1, h2]

theorem distributePass_snd_ge (sh : List String) (wd : String → Nat × Nat)
    (s u : Nat) (i : String) :
    (wd i).2 ≤ (((distributePass sh wd s u).1) i).2 := by
  induction sh generalizing wd s u with
  | nil => simp [distributePass]
  | cons a rest ih =>
    by_cases h1 : 0 < s
    · simp only [distributePass, if_pos h1]
      refine le_trans ?_ (ih _ _ _)
      by_cases hia : i = a
      · subst hia
        simp [Function.update_apply]
      · simp [Function.update_apply, hia]
    · by_cases h2 : 0 < u
      · simp only [distributePass, if_neg h1, if_pos h2]
        refine le_trans ?_ (ih _ _ _)
        by_cases hia : i = a
        · subst hia
          simp [Function.update_apply]
        · simp [Function.update_apply, hia]
      · simp [distributePass, h1, h2]

/-- A pass over a list at least as long as the Saturday remainder
exhausts the Saturday remainder (the pass serves Saturdays first). -/
theorem distributePass_sat_zero (sh : List String) (wd : String → Nat × Nat)
    (s u : Nat) (h : s ≤ sh.length) :
    (distributePass sh wd s u).2.1 = 0 := by
  induction sh generalizing wd s u with
  | nil =>
    have : s = 0 := by simpa using h
    simp [distributePass, this]
  | cons a rest ih =>
    by_cases h1 : 0 < s
    · simp only [distributePass, if_pos h1]
      exact ih _ _ _ (by simp at h; omega)
    · have hs : s = 0 := by omega
      by_cases h2 : 0 < u
      · simp only [distributePass, if_neg h1, if_pos h2]
        exact ih _ _ _ (by omega)
      · simp [distributePass, h1, h2, hs]

theorem distributeLoop_zero_sat (f : Nat) (sh : List String)
    (wd : String → Nat × Nat) (u : Nat) :
    distributeLoop f sh wd 0 u = (wd, 0, u) := by
  cases f <;> simp [distributeLoop]

theorem distributeLoop_stuck (f : Nat) (sh : List String)
    (wd : String → Nat × Nat) (s u : Nat) (h : ¬(0 < s ∧ 0 < u)) :
    distributeLoop f sh wd s u = (wd, s, u) := by
  cases f <;> simp [distributeLoop, h]

/-- When the Saturday remainder is at most the length of the (nonempty)
shuffled list, the `while` loop performs exactly one pass: the first pass
zeroes the Saturday remainder, falsifying the `and` guard. -/
theorem distributeLoop_one_pass (f : Nat) (sh : List String)
    (wd : String → Nat × Nat) (s u : Nat) (hs : 0 < s) (hu : 0 < u)
    (hlen : s ≤ sh.length) (hf : 0 < f) :
    distributeLoop f sh wd s u = distributePass sh wd s u := by
  cases f with
  | zero => omega
  | succ f =>
    have hz := distributePass_sat_zero sh wd s u hlen
    simp only [distributeLoop, if_pos (And.intro hs hu)]
    rw [hz, distributeLoop_zero_sat, ← hz]

/-- C5: after the pre-distribution, any two persons' Saturday targets
differ by at most 1, and likewise for Sunday.  The remainders are each
`< n` (they are residues mod the person count), so the single pass the
loop performs hands each person at most one extra slot on top of the
common baseline. -/
theorem weekend_targets_within_one (interns shuffled : List String)
    (numSat numSun minInterns : Nat) (hne : interns ≠ [])
    (hnd : interns.Nodup) (hperm : shuffled.Perm interns) :
    ∀ i ∈ interns, ∀ j ∈ interns,
      (weekendDistribution interns shuffled numSat numSun minInterns i).1
        ≤ (weekendDistribution interns shuffled numSat numSun minInterns j).1
          + 1 ∧
      (weekendDistribution interns shuffled numSat numSun minInterns i).2
        ≤ (weekendDistribution interns shuffled numSat numSun minInterns j).2
          + 1 := by
  intro i hi j hj
  have hn : 0 < interns.length := List.length_pos.mpr hne
  have hlen : shuffled.length = interns.length := hperm.length_eq
  have hshnd : shuffled.Nodup := hperm.nodup_iff.mpr hnd
  have hcount : ∀ x : String, shuffled.count x ≤ 1 :=
    fun x => List.nodup_iff_count_le_one.mp hshnd x
  simp only [weekendDistribution]
  by_cases hg : 0 < numSat * minInterns % interns.length ∧
      0 < numSun * minInterns % interns.length
  · rw [distributeLoop_one_pass _ _ _ _ _ hg.1 hg.2
      (by
        have := Nat.mod_lt (numSat * minInterns) hn
        omega)
      (by omega)]
    constructor
    · calc ((distributePass shuffled
            (fun _ => (numSat * minInterns / interns.length,
              numSun * minInterns / interns.length))
            (numSat * minInterns % interns.length)
            (numSun * minInterns % interns.length)).1 i).1
          ≤ numSat * minInterns / interns.length + shuffled.count i :=
            distributePass_fst_le _ _ _ _ _
      _ ≤ numSat * minInterns / interns.length + 1 := by
            have := hcount i
            omega
      _ ≤ ((distributePass shuffled
            (fun _ => (numSat * minInterns / interns.length,
              numSun * minInterns / interns.length))
            (numSat * minInterns % interns.length)
            (numSun * minInterns % interns.length)).1 j).1 + 1 := by
            have := distributePass_fst_ge shuffled
              (fun _ => (numSat * minInterns / interns.length,
                numSun * minInterns / interns.length))
              (numSat * minInterns % interns.length)
              (numSun * minInterns % interns.length) j
            omega
    · calc ((distributePass shuffled
            (fun _ => (numSat * minInterns / interns.length,
              numSun * minInterns / interns.length))
            (numSat * minInterns % interns.length)
            (numSun * minInterns % interns.length)).1 i).2
          ≤ numSun * minInterns / interns.length + shuffled.count i :=
            distributePass_snd_le _ _ _ _ _
      _ ≤ numSun * minInterns / interns.length + 1 := by
            have := hcount i
            omega
      _ ≤ ((distributePass shuffled
            (fun _ => (numSat * minInterns / interns.length,
              numSun * minInterns / interns.length))
            (numSat * minInterns % interns.length)
            (numSun * minInterns % interns.length)).1 j).2 + 1 := by
            have := distributePass_snd_ge shuffled
              (fun _ => (numSat * minInterns / interns.length,
                numSun * minInterns / interns.length))
              (numSat * minInterns % interns.length)
              (numSun * minInterns % interns.length) j
            omega
  · rw [distributeLoop_stuck _ _ _ _ _ hg]
    simp

/-- Witness for C5: two interns, one Saturday and one Sunday at minimum
staffing 1, shuffled order `["B", "A"]`; the targets of A and B differ by
at most one on each weekend day type. -/
theorem weekend_targets_within_one_witness :
    (weekendDistribution ["A", "B"] ["B", "A"] 1 1 1 "A").1
      ≤ (weekendDistribution ["A", "B"] ["B", "A"] 1 1 1 "B").1 + 1 ∧
    (weekendDistribution ["A", "B"] ["B", "A"] 1 1 1 "A").2
      ≤ (weekendDistribution ["A", "B"] ["B", "A"] 1 1 1 "B").2 + 1 :=
  weekend_targets_within_one ["A", "B"] ["B", "A"] 1 1 1 (by decide)
    (by decide) (by decide) "A" (by decide) "B" (by decide)

/-! ### C6: average spacing -/

theorem range_head? (n : Nat) (h : 0 < n) :
    (List.range n).head? = some 0 := by
  cases n with
  | zero => omega
  | succ m => simp [List.range_succ_eq_map]

theorem range_getLast? (n : Nat) (h : 0 < n) :
    (List.range n).getLast? = some (n - 1) := by
  rw [List.getLast?_eq_getElem?]
  simp only [List.length_range]
  have hlt : n - 1 < n := by omega
  simp [hlt]

theorem generate_dates_head? (s m : Nat) :
    (generate_dates s (m + 1)).head? = some ⟨0, s % 7⟩ := by
  rw [generate_dates, List.head?_map, range_head? (m + 1) (by omega)]
  rfl

theorem generate_dates_getLast? (s m : Nat) :
    (generate_dates s (m + 1)).getLast? = some ⟨m, (s + m) % 7⟩ := by
  rw [generate_dates, List.getLast?_map, range_getLast? (m + 1) (by omega)]
  rfl

/-- C6: for every intern, `average_spacing` as extracted by `solve` equals
the spec's formula — the gap from horizon start to the first shift, plus
the gaps between consecutive shifts, plus the gap from the last shift to
horizon end, divided by `num_shifts + 1` — and is absent (`none`), not
zero, for an intern with no shifts.  (`specAverageSpacing` is modelled
from the spec's words in §4.4.) -/
theorem average_spacing_spec (s n : Nat) (val : String → Nat → Bool)
    (i : String) :
    (metricsFor (generate_dates s n) val i).average_spacing
      = specAverageSpacing n (shiftsFor (generate_dates s n) val i) := by
  cases n with
  | zero =>
    rfl
  | succ m =>
    show averageSpacing (generate_dates s (m + 1))
        (shiftsFor (generate_dates s (m + 1)) val i)
      = specAverageSpacing (m + 1) (shiftsFor (generate_dates s (m + 1)) val i)
    cases hsh : shiftsFor (generate_dates s (m + 1)) val i with
    | nil =>
      rw [averageSpacing, generate_dates_head?, generate_dates_getLast?]
      rfl
    | cons a rest =>
      have hx : (a :: rest).getLast? = some ((a :: rest).getLast (by simp)) :=
        List.getLast?_eq_getLast _ _
      rw [averageSpacing, specAverageSpacing, generate_dates_head?,
        generate_dates_getLast?, List.head?_cons, hx]
      refine congrArg some ?_
      refine congrArg (fun x : ℚ => x / ((a :: rest).length + 1 : ℚ)) ?_
      push_cast
      ring

end DutyScheduler
